import Mathlib

/-!
Shallow embedding of `scripts/plot_results.py`, a benchmark-visualisation
script: it loads a CSV of flow-shop benchmark results, groups the rows by
algorithm, sorts each group by `(jobs, machines)`, and renders four line
charts.  Pure data transformations are embedded as Lean functions; the
side effects of `main` (directory creation, chart writing, printing) are
embedded as an explicit event trace, and fatal termination (an uncaught
exception or `SystemExit`, i.e. a non-zero exit status before any side
effect happens) as `Except.error`.
-/

open List

/-- One parsed benchmark observation, as built by `read_results_csv`
(one Python dict per CSV data row).  Python `int` fields become `Int`,
Python `float` fields become `ℚ` (the script only moves these values
around, it never computes with them). -/
structure Record where
  algo : String
  jobs : Int
  machines : Int
  runs : Int
  time_mean_ms : ℚ
  time_std_ms : ℚ
  makespan_best : Int
  makespan_mean : ℚ
  makespan_std : ℚ
deriving DecidableEq

/-- A raw CSV data row as produced by `csv.DictReader`: an association
list from header field name to the cell's string value. -/
abbrev RawRow := List (String × String)

/-- Drop leading and trailing whitespace, as Python's `int(...)` and
`float(...)` do on their string argument. -/
def stripWS (l : List Char) : List Char :=
  ((l.dropWhile Char.isWhitespace).reverse.dropWhile Char.isWhitespace).reverse

/-- Split off an optional leading sign; returns (isNegative, rest). -/
def signSplit (l : List Char) : Bool × List Char :=
  match l with
  | [] => (false, [])
  | c :: rest =>
    if c = '+' then (false, rest)
    else if c = '-' then (true, rest)
    else (false, c :: rest)

/-- The natural number denoted by a list of decimal digit characters. -/
def digitsToNat (l : List Char) : Nat :=
  l.foldl (fun n c => n * 10 + (c.toNat - '0'.toNat)) 0

/-- Python's `int(...)` applied to an already-whitespace-stripped string:
an optional sign followed by a non-empty run of decimal digits (digit
grouping underscores are not modelled; no claim depends on them).
Anything else - in particular any string containing `'.'` - fails. -/
def pyIntCore (l : List Char) : Option Int :=
  if (signSplit l).2 ≠ [] ∧ (signSplit l).2.all Char.isDigit then
    some (if (signSplit l).1 then -(digitsToNat (signSplit l).2 : Int)
          else (digitsToNat (signSplit l).2 : Int))
  else none

/-- Python's `int(...)` on a string: strip whitespace, then parse a
signed decimal integer literal; `none` models the `ValueError` raised on
any other input. -/
def pyInt (s : String) : Option Int := pyIntCore (stripWS s.toList)

/-- Split a character list at the first character satisfying `p`:
returns the part before it and, if found, the part after it. -/
def splitOnFirst (p : Char → Bool) : List Char → List Char × Option (List Char)
  | [] => ([], none)
  | c :: rest =>
    if p c then ([], some rest)
    else
      match splitOnFirst p rest with
      | (a, b) => (c :: a, b)

/-- The exponent marker characters of a Python float literal. -/
def isExpChar (c : Char) : Bool := c == 'e' || c == 'E'

/-- The decimal point character of a Python float literal. -/
def isDotChar (c : Char) : Bool := c == '.'

/-- The exponent of a float literal: absent means `10^0`; present, it
must parse as a signed digit run (as `int(...)` does, sans whitespace). -/
def expValOf (o : Option (List Char)) : Option Int := o.elim (some 0) pyIntCore

/-- `10^ex` as a rational, for an integer exponent `ex` (via `mkRat`,
which the kernel evaluates). -/
def ratPow10 (ex : Int) : ℚ :=
  match ex with
  | Int.ofNat n => mkRat (10 ^ n) 1
  | Int.negSucc n => mkRat 1 (10 ^ (n + 1))

/-- The value of the mantissa `ip [. fp]` of a float literal scaled by an
exponent `ex`: both digit parts must be digit runs, not both empty. -/
def mantVal (mant : List Char) (ex : Int) : Option ℚ :=
  ((splitOnFirst isDotChar mant).2).elim
    (if (splitOnFirst isDotChar mant).1 ≠ [] ∧
        (splitOnFirst isDotChar mant).1.all Char.isDigit then
      some (mkRat (digitsToNat (splitOnFirst isDotChar mant).1) 1 * ratPow10 ex)
    else none)
    (fun fp =>
      if ((splitOnFirst isDotChar mant).1 ≠ [] ∨ fp ≠ []) ∧
          (splitOnFirst isDotChar mant).1.all Char.isDigit ∧ fp.all Char.isDigit then
        some ((mkRat (digitsToNat (splitOnFirst isDotChar mant).1) 1 +
            mkRat (digitsToNat fp) (10 ^ fp.length)) * ratPow10 ex)
      else none)

/-- Python's `float(...)` applied to a whitespace-stripped, sign-stripped
string: `digits [. digits*] [exp]`, `. digits+ [exp]` or `digits+ . [exp]`
where `exp` is `e`/`E` followed by a signed digit run.  The special forms
`inf`/`nan` and digit grouping underscores are not modelled; no claim
depends on them. -/
def pyFloatMag (l : List Char) : Option ℚ :=
  (expValOf (splitOnFirst isExpChar l).2).bind
    (fun ex => mantVal (splitOnFirst isExpChar l).1 ex)

/-- Python's `float(...)` on a string: strip whitespace, take an optional
sign, then a decimal floating-point literal; `none` models `ValueError`. -/
def pyFloat (s : String) : Option ℚ :=
  (pyFloatMag (signSplit (stripWS s.toList)).2).map
    (fun q => if (signSplit (stripWS s.toList)).1 then -q else q)

/-- The body of the row loop of `read_results_csv`: build one `Record`
from one `csv.DictReader` row.  A missing header field (`KeyError`) or a
failing `int`/`float` coercion (`ValueError`) makes the whole row fail;
fields are evaluated in the order of the Python dict literal. -/
def parseRow (row : RawRow) : Option Record := do
  let algo ← List.lookup "algo" row
  let jobsS ← List.lookup "jobs" row
  let jobs ← pyInt jobsS
  let machinesS ← List.lookup "machines" row
  let machines ← pyInt machinesS
  let runsS ← List.lookup "runs" row
  let runs ← pyInt runsS
  let tmS ← List.lookup "time_mean_ms" row
  let time_mean_ms ← pyFloat tmS
  let tsS ← List.lookup "time_std_ms" row
  let time_std_ms ← pyFloat tsS
  let mbS ← List.lookup "makespan_best" row
  let makespan_best ← pyInt mbS
  let mmS ← List.lookup "makespan_mean" row
  let makespan_mean ← pyFloat mmS
  let msS ← List.lookup "makespan_std" row
  let makespan_std ← pyFloat msS
  pure { algo := algo, jobs := jobs, machines := machines, runs := runs,
         time_mean_ms := time_mean_ms, time_std_ms := time_std_ms,
         makespan_best := makespan_best, makespan_mean := makespan_mean,
         makespan_std := makespan_std }

/-- `read_results_csv`: parse the data rows in file order into records.
Any row failure aborts the whole load (the Python exception propagates),
so there is never a partial result. -/
def read_results_csv : List RawRow → Option (List Record)
  | [] => some []
  | row :: rest => do
    let r ← parseRow row
    let rs ← read_results_csv rest
    pure (r :: rs)

/-- The `Group` type: `group_by_algo` returns a Python dict from
algorithm name to its list of rows; embedded as an association list in
key insertion order (Python dicts preserve insertion order). -/
abbrev Groups := List (String × List Record)

/-- One iteration of the grouping loop `g[row["algo"]].append(row)`:
append the record to the bucket of its `algo` key, creating the bucket
at the end (insertion order) if the key is new. -/
def insertRow (g : Groups) (r : Record) : Groups :=
  match g with
  | [] => [(r.algo, [r])]
  | (a, rs) :: rest =>
    if a = r.algo then (a, rs ++ [r]) :: rest
    else (a, rs) :: insertRow rest r

/-- The sort key lambda `lambda x: (x["jobs"], x["machines"])` combined
with Python tuple comparison: lexicographic order on `(jobs, machines)`,
as a Boolean total preorder. -/
def keyLe (a b : Record) : Bool :=
  a.jobs < b.jobs || (a.jobs == b.jobs && decide (a.machines ≤ b.machines))

/-- `group_by_algo`: bucket the rows by `algo` in input order, then sort
each bucket in place by `(jobs, machines)`.  Python's `list.sort` is a
stable ascending sort, embedded as `List.mergeSort` (stable by
`List.sublist_mergeSort`), which computes the same list. -/
def group_by_algo (rows : List Record) : Groups :=
  (rows.foldl insertRow []).map (fun ap => (ap.1, ap.2.mergeSort keyLe))

/-- One line drawn by `ax.plot(x, y, ...)`: its legend label and its x
and y coordinate lists, exactly as the list comprehensions build them. -/
structure PlottedLine where
  label : String
  x : List Int
  y : List ℚ
deriving DecidableEq

/-- The data content of one figure produced by `plot_lines`. -/
structure LineChart where
  lines : List PlottedLine
  xlabel : String
  ylabel : String
  title : String
  grid : Bool
  legend : List String
deriving DecidableEq

/-- The comparison underlying `sorted(groups.items(), key=lambda kv: kv[0])`:
ascending lexicographic order on the algorithm name. -/
def nameLe (a b : String × List Record) : Bool := decide (a.1 ≤ b.1)

/-- `plot_lines(groups, out_path, title, y_label, y_key)` without the
file write (the write is an event of `main`): one line per algorithm,
iterated in ascending name order, with points `(r["jobs"], r[y_key])`
in bucket order; fixed x label, grid, and a legend of all line labels. -/
def plot_lines (groups : Groups) (title y_label : String) (y_key : Record → ℚ) :
    LineChart :=
  let sortedGroups := groups.mergeSort nameLe
  { lines := sortedGroups.map (fun ap =>
      { label := ap.1, x := ap.2.map (fun r => r.jobs), y := ap.2.map y_key }),
    xlabel := "n_jobs", ylabel := y_label, title := title, grid := true,
    legend := sortedGroups.map (fun ap => ap.1) }

/-- One line drawn by `ax.errorbar(x, y, yerr=yerr, ..., capsize=3, ...)`:
label, coordinates and error-bar half-lengths, plus the fixed cap size. -/
structure ErrLine where
  label : String
  x : List Int
  y : List ℚ
  yerr : List ℚ
  capsize : ℚ
deriving DecidableEq

/-- The data content of the figure produced by `plot_runtime_mean_with_std`. -/
structure ErrorBarChart where
  lines : List ErrLine
  xlabel : String
  ylabel : String
  title : String
  grid : Bool
  legend : List String
deriving DecidableEq

/-- `plot_runtime_mean_with_std(groups, out_path)` without the file
write: per algorithm in ascending name order, x = jobs, y = mean runtime,
error-bar half-lengths = runtime standard deviation, in bucket order. -/
def plot_runtime_mean_with_std (groups : Groups) : ErrorBarChart :=
  let sortedGroups := groups.mergeSort nameLe
  { lines := sortedGroups.map (fun ap =>
      { label := ap.1, x := ap.2.map (fun r => r.jobs),
        y := ap.2.map (fun r => r.time_mean_ms),
        yerr := ap.2.map (fun r => r.time_std_ms), capsize := 3 }),
    xlabel := "n_jobs", ylabel := "runtime mean (ms)",
    title := "Runtime vs jobs (mean ± std)", grid := true,
    legend := sortedGroups.map (fun ap => ap.1) }

/-- `os.path.join(d, f)` for the relative file names the script uses. -/
def pathJoin (d f : String) : String :=
  if d = "" then f
  else if d.endsWith "/" then d ++ f
  else d ++ "/" ++ f

/-- One observable side effect of `main`, in program order:
`os.makedirs(dir, exist_ok=ok)`, `fig.savefig(path)` (with the data the
figure holds), or one line written to standard output. -/
inductive Event where
  | mkdir (dir : String) (exist_ok : Bool)
  | saveErrChart (path : String) (chart : ErrorBarChart)
  | saveLineChart (path : String) (chart : LineChart)
  | printLine (s : String)
deriving DecidableEq

namespace PlotResults

/-- Trace of side effects of `main`'s success path (`main` lines after
the empty check), in program order: create the output directory
(`exist_ok=True`), save the four charts under their fixed names, print
the banner and the four written paths. -/
def successTrace (groups : Groups) (outdir : String) : List Event :=
  [Event.mkdir outdir true,
   Event.saveErrChart (pathJoin outdir "runtime_mean_ms.png")
     (plot_runtime_mean_with_std groups),
   Event.saveLineChart (pathJoin outdir "makespan_best.png")
     (plot_lines groups "Makespan best vs jobs" "makespan best"
       (fun r => (r.makespan_best : ℚ))),
   Event.saveLineChart (pathJoin outdir "makespan_mean.png")
     (plot_lines groups "Makespan mean vs jobs" "makespan mean"
       (fun r => r.makespan_mean)),
   Event.saveLineChart (pathJoin outdir "makespan_std.png")
     (plot_lines groups "Makespan std vs jobs" "makespan std"
       (fun r => r.makespan_std)),
   Event.printLine "Сохранено:",
   Event.printLine (" - " ++ pathJoin outdir "runtime_mean_ms.png"),
   Event.printLine (" - " ++ pathJoin outdir "makespan_best.png"),
   Event.printLine (" - " ++ pathJoin outdir "makespan_mean.png"),
   Event.printLine (" - " ++ pathJoin outdir "makespan_std.png")]

/-- `main`, given the already-read CSV data rows and the `--outdir`
value: an `Except.error` models fatal termination with a non-zero exit
status before any side effect (an uncaught `KeyError`/`ValueError` from
the loader, or the explicit `SystemExit` on empty input); `Except.ok`
carries the ordered trace of side effects of a successful run. -/
def main (inp : List RawRow) (outdir : String) : Except String (List Event) :=
  match read_results_csv inp with
  | none => Except.error "ParseError"
  | some rows =>
    if rows.isEmpty then Except.error "CSV пуст или не удалось распарсить данные"
    else Except.ok (successTrace (group_by_algo rows) outdir)

end PlotResults

/-- The file paths passed to `fig.savefig` within a trace, in order. -/
def savedPaths : List Event → List String
  | [] => []
  | Event.saveErrChart p _ :: es => p :: savedPaths es
  | Event.saveLineChart p _ :: es => p :: savedPaths es
  | _ :: es => savedPaths es

/-- The lines written to standard output within a trace, in order. -/
def printedLines : List Event → List String
  | [] => []
  | Event.printLine s :: es => s :: printedLines es
  | _ :: es => printedLines es

/-- All records held by a `Groups` value, partition by partition. -/
def partsFlatten (g : Groups) : List Record := (g.map Prod.snd).flatten

lemma insertRow_flatten_perm (g : Groups) (r : Record) :
    partsFlatten (insertRow g r) ~ partsFlatten g ++ [r] := by
  induction g with
  | nil => simp [insertRow, partsFlatten]
  | cons p rest ih =>
    obtain ⟨a, rs⟩ := p
    by_cases h : a = r.algo
    · simp only [insertRow, if_pos h, partsFlatten, List.map_cons, List.flatten_cons]
      rw [List.append_assoc, List.append_assoc]
      exact List.Perm.append_left rs List.perm_append_comm
    · simp only [insertRow, if_neg h, partsFlatten, List.map_cons, List.flatten_cons]
      rw [List.append_assoc]
      exact List.Perm.append_left rs ih

lemma foldl_insertRow_flatten_perm (rows : List Record) :
    ∀ g : Groups, partsFlatten (rows.foldl insertRow g) ~ partsFlatten g ++ rows := by
  induction rows with
  | nil => intro g; simp
  | cons r rest ih =>
    intro g
    calc partsFlatten ((r :: rest).foldl insertRow g)
        = partsFlatten (rest.foldl insertRow (insertRow g r)) := rfl
      _ ~ partsFlatten (insertRow g r) ++ rest := ih (insertRow g r)
      _ ~ (partsFlatten g ++ [r]) ++ rest :=
          List.Perm.append_right rest (insertRow_flatten_perm g r)
      _ = partsFlatten g ++ (r :: rest) := by simp

lemma map_sort_flatten_perm (g : Groups) :
    partsFlatten (g.map (fun ap => (ap.1, ap.2.mergeSort keyLe))) ~ partsFlatten g := by
  induction g with
  | nil => simp [partsFlatten]
  | cons p rest ih =>
    simp only [partsFlatten, List.map_cons, List.flatten_cons] at *
    exact List.Perm.append (List.mergeSort_perm p.2 keyLe) ih

lemma group_flatten_perm (rows : List Record) :
    partsFlatten (group_by_algo rows) ~ rows := by
  have h1 := map_sort_flatten_perm (rows.foldl insertRow [])
  have h2 := foldl_insertRow_flatten_perm rows []
  simpa [group_by_algo, partsFlatten] using h1.trans h2

lemma wellKeyed_insertRow (g : Groups) (r : Record)
    (hg : ∀ p ∈ g, ∀ x ∈ p.2, x.algo = p.1) :
    ∀ p ∈ insertRow g r, ∀ x ∈ p.2, x.algo = p.1 := by
  induction g with
  | nil =>
    intro p hp x hx
    simp only [insertRow, List.mem_singleton] at hp
    subst hp
    simp only [List.mem_singleton] at hx
    subst hx
    rfl
  | cons q rest ih =>
    obtain ⟨a, rs⟩ := q
    by_cases h : a = r.algo
    · intro p hp x hx
      simp only [insertRow, if_pos h, List.mem_cons] at hp
      rcases hp with rfl | hp
      · simp only [List.mem_append, List.mem_singleton] at hx
        rcases hx with hx | rfl
        · exact hg (a, rs) (List.mem_cons_self _ _) x hx
        · exact h.symm
      · exact hg p (List.mem_cons_of_mem _ hp) x hx
    · intro p hp x hx
      simp only [insertRow, if_neg h, List.mem_cons] at hp
      rcases hp with rfl | hp
      · exact hg (a, rs) (List.mem_cons_self _ _) x hx
      · exact ih (fun q hq => hg q (List.mem_cons_of_mem _ hq)) p hp x hx

lemma wellKeyed_foldl (rows : List Record) :
    ∀ g : Groups, (∀ p ∈ g, ∀ x ∈ p.2, x.algo = p.1) →
      ∀ p ∈ rows.foldl insertRow g, ∀ x ∈ p.2, x.algo = p.1 := by
  induction rows with
  | nil => intro g hg; exact hg
  | cons r rest ih =>
    intro g hg
    exact ih (insertRow g r) (wellKeyed_insertRow g r hg)

lemma wellKeyed_group (rows : List Record) :
    ∀ p ∈ group_by_algo rows, ∀ x ∈ p.2, x.algo = p.1 := by
  intro p hp x hx
  simp only [group_by_algo, List.mem_map] at hp
  obtain ⟨q, hq, rfl⟩ := hp
  simp only [List.mem_mergeSort] at hx
  exact wellKeyed_foldl rows [] (by simp) q hq x hx

/-- Claim C1: grouping loses and duplicates nothing — the concatenation
of all partitions of `group_by_algo rows` is a permutation of the
non-empty input `rows`, every record of a partition carries that
partition's `algo` key, and every input record lies in the partition
keyed by its own `algo` value. -/
theorem grouping_round_trip (rows : List Record) (_hne : rows ≠ []) :
    partsFlatten (group_by_algo rows) ~ rows ∧
    (∀ p ∈ group_by_algo rows, ∀ x ∈ p.2, x.algo = p.1) ∧
    (∀ r ∈ rows, ∃ part, (r.algo, part) ∈ group_by_algo rows ∧ r ∈ part) := by
  refine ⟨group_flatten_perm rows, wellKeyed_group rows, ?_⟩
  intro r hr
  have hmem : r ∈ partsFlatten (group_by_algo rows) :=
    (group_flatten_perm rows).mem_iff.mpr hr
  simp only [partsFlatten, List.mem_flatten, List.mem_map] at hmem
  obtain ⟨l, ⟨p, hp, rfl⟩, hrl⟩ := hmem
  have halgo : r.algo = p.1 := wellKeyed_group rows p hp r hrl
  refine ⟨p.2, ?_, hrl⟩
  rw [halgo]
  simpa using hp

/-- Concrete instantiation of `grouping_round_trip`. -/
def wRecGA : Record := ⟨"GA", 10, 5, 3, 12, 1, 42, 43, 0⟩

def wRecSA : Record := ⟨"SA", 20, 5, 3, 7, 1, 50, 51, 2⟩

theorem grouping_round_trip_witness :
    ([wRecSA, wRecGA] ≠ []) ∧
    (partsFlatten (group_by_algo [wRecSA, wRecGA]) ~ [wRecSA, wRecGA] ∧
    (∀ p ∈ group_by_algo [wRecSA, wRecGA], ∀ x ∈ p.2, x.algo = p.1) ∧
    (∀ r ∈ [wRecSA, wRecGA], ∃ part,
      (r.algo, part) ∈ group_by_algo [wRecSA, wRecGA] ∧ r ∈ part)) :=
  ⟨by decide, grouping_round_trip [wRecSA, wRecGA] (by decide)⟩

lemma keyLe_trans : ∀ a b c : Record, keyLe a b → keyLe b c → keyLe a c := by
  intro a b c
  simp only [keyLe, Bool.or_eq_true, Bool.and_eq_true, decide_eq_true_eq, beq_iff_eq]
  omega

lemma keyLe_total : ∀ a b : Record, keyLe a b || keyLe b a := by
  intro a b
  simp only [keyLe, Bool.or_eq_true, Bool.and_eq_true, decide_eq_true_eq, beq_iff_eq]
  omega

/-- Claim C2: every partition produced by `group_by_algo` is sorted:
whenever `r1` appears before `r2` in a partition,
`(r1.jobs, r1.machines) ≤ (r2.jobs, r2.machines)` lexicographically. -/
theorem partition_sorted (rows : List Record) (p : String × List Record)
    (hp : p ∈ group_by_algo rows) :
    p.2.Pairwise (fun r1 r2 =>
      r1.jobs < r2.jobs ∨ (r1.jobs = r2.jobs ∧ r1.machines ≤ r2.machines)) := by
  simp only [group_by_algo, List.mem_map] at hp
  obtain ⟨q, _, rfl⟩ := hp
  have h := List.sorted_mergeSort keyLe_trans keyLe_total q.2
  exact h.imp (fun hab => by
    simpa only [keyLe, Bool.or_eq_true, Bool.and_eq_true, decide_eq_true_eq,
      beq_iff_eq] using hab)

lemma group_witness_eval :
    group_by_algo [wRecSA, wRecGA] = [("SA", [wRecSA]), ("GA", [wRecGA])] := by
  simp [group_by_algo, insertRow, wRecSA, wRecGA]

theorem partition_sorted_witness :
    (("GA", [wRecGA]) ∈ group_by_algo [wRecSA, wRecGA]) ∧
    [wRecGA].Pairwise (fun r1 r2 =>
      r1.jobs < r2.jobs ∨ (r1.jobs = r2.jobs ∧ r1.machines ≤ r2.machines)) :=
  ⟨by rw [group_witness_eval]; decide,
   partition_sorted [wRecSA, wRecGA] ("GA", [wRecGA])
     (by rw [group_witness_eval]; decide)⟩

/-- The `(jobs, machines)` sort key of a record. -/
def rowKey (r : Record) : Int × Int := (r.jobs, r.machines)

lemma lookup_cons_eq {β : Type} (a b : String) (m : β) (rest : List (String × β)) :
    List.lookup a ((b, m) :: rest) = if a = b then some m else List.lookup a rest := by
  by_cases h : a = b
  · simp [List.lookup_cons, h]
  · have hb : (a == b) = false := beq_eq_false_iff_ne.mpr h
    simp [List.lookup_cons, hb, h]

lemma lookup_insertRow (g : Groups) (r : Record) (a : String) :
    List.lookup a (insertRow g r) =
      if a = r.algo then some ((List.lookup a g).getD [] ++ [r])
      else List.lookup a g := by
  induction g with
  | nil =>
    by_cases h : a = r.algo <;> simp [insertRow, lookup_cons_eq, h]
  | cons p rest ih =>
    obtain ⟨b, rs⟩ := p
    by_cases hbr : b = r.algo
    · by_cases hab : a = b
      · simp [insertRow, lookup_cons_eq, hbr, hab, hab.trans hbr]
      · have har : ¬ a = r.algo := fun he => hab (he.trans hbr.symm)
        simp [insertRow, lookup_cons_eq, hbr, hab, har]
    · by_cases hab : a = b
      · have har : ¬ a = r.algo := fun he => hbr (hab.symm.trans he)
        simp [insertRow, lookup_cons_eq, hbr, hab, har]
      · simp [insertRow, lookup_cons_eq, hbr, hab, ih]

/-- How a bucket lookup combines with the records a row run appends. -/
def combineOpt (o : Option (List Record)) (f : List Record) : Option (List Record) :=
  match o with
  | some l => some (l ++ f)
  | none => if f = [] then none else some f

lemma lookup_foldl_insertRow (rows : List Record) :
    ∀ (g : Groups) (a : String),
      List.lookup a (rows.foldl insertRow g) =
        combineOpt (List.lookup a g) (rows.filter (fun r => r.algo == a)) := by
  induction rows with
  | nil =>
    intro g a
    cases hla : List.lookup a g <;> simp [combineOpt, hla]
  | cons r rest ih =>
    intro g a
    rw [show (r :: rest).foldl insertRow g = rest.foldl insertRow (insertRow g r) from rfl,
      ih, lookup_insertRow]
    by_cases h : r.algo = a
    · rw [if_pos h.symm]
      have hfil : (r :: rest).filter (fun x => x.algo == a) =
          r :: rest.filter (fun x => x.algo == a) := by
        simp [List.filter_cons, h]
      rw [hfil]
      cases hla : List.lookup a g <;> simp [combineOpt, hla, List.append_assoc]
    · rw [if_neg (fun he => h he.symm)]
      have hfil : (r :: rest).filter (fun x => x.algo == a) =
          rest.filter (fun x => x.algo == a) := by
        simp [List.filter_cons, h]
      rw [hfil]

lemma lookup_map_sort (g : Groups) (a : String) :
    List.lookup a (g.map (fun ap => (ap.1, ap.2.mergeSort keyLe))) =
      (List.lookup a g).map (fun l => l.mergeSort keyLe) := by
  induction g with
  | nil => simp
  | cons p rest ih =>
    obtain ⟨b, m⟩ := p
    by_cases h : a = b <;> simp [lookup_cons_eq, h, ih]

/-- Keys of the buckets, in insertion order. -/
def keysOf (g : Groups) : List String := g.map Prod.fst

lemma keysOf_insertRow (g : Groups) (r : Record) :
    keysOf (insertRow g r) =
      if r.algo ∈ keysOf g then keysOf g else keysOf g ++ [r.algo] := by
  induction g with
  | nil => simp [insertRow, keysOf]
  | cons p rest ih =>
    obtain ⟨b, rs⟩ := p
    by_cases h : b = r.algo
    · subst h
      simp [insertRow, keysOf]
    · have hne : ¬ r.algo = b := fun he => h he.symm
      simp only [insertRow, if_neg h, keysOf, List.map_cons] at ih ⊢
      rw [ih]
      by_cases hm : r.algo ∈ rest.map Prod.fst
      · rw [if_pos hm, if_pos (List.mem_cons_of_mem _ hm)]
      · rw [if_neg hm, if_neg (by simp [List.mem_cons, hne, hm]), List.cons_append]

lemma keys_nodup_insertRow (g : Groups) (r : Record)
    (h : (keysOf g).Nodup) : (keysOf (insertRow g r)).Nodup := by
  rw [keysOf_insertRow]
  by_cases hm : r.algo ∈ keysOf g
  · rwa [if_pos hm]
  · rw [if_neg hm]
    refine List.Nodup.append h (List.nodup_singleton _) ?_
    intro x hx hxm
    rw [List.mem_singleton] at hxm
    exact hm (hxm ▸ hx)

lemma keys_nodup_foldl (rows : List Record) :
    ∀ g : Groups, (keysOf g).Nodup → (keysOf (rows.foldl insertRow g)).Nodup := by
  induction rows with
  | nil => intro g hg; exact hg
  | cons r rest ih => intro g hg; exact ih _ (keys_nodup_insertRow g r hg)

lemma lookup_of_mem_nodup (g : Groups) (a : String) (l : List Record)
    (hnd : (keysOf g).Nodup) (h : (a, l) ∈ g) : List.lookup a g = some l := by
  induction g with
  | nil => cases h
  | cons p rest ih =>
    obtain ⟨b, m⟩ := p
    have hnd2 : (b :: rest.map Prod.fst).Nodup := by
      simpa only [keysOf, List.map_cons] using hnd
    rcases List.mem_cons.mp h with he | hm
    · have h1 : a = b := congrArg Prod.fst he
      have h2 : l = m := congrArg Prod.snd he
      subst h1; subst h2
      simp [lookup_cons_eq]
    · have hab : a ≠ b := by
        rintro rfl
        exact (List.nodup_cons.mp hnd2).1 (List.mem_map_of_mem Prod.fst hm)
      rw [lookup_cons_eq, if_neg hab]
      exact ih (by simpa only [keysOf] using (List.nodup_cons.mp hnd2).2) hm

/-- Any partition of `group_by_algo rows` is the stable sort of exactly
the input records carrying its key, in input order. -/
lemma partition_eq (rows : List Record) (a : String) (p : List Record)
    (hp : (a, p) ∈ group_by_algo rows) :
    p = (rows.filter (fun r => r.algo == a)).mergeSort keyLe := by
  have hnd : (keysOf (rows.foldl insertRow [])).Nodup :=
    keys_nodup_foldl rows [] (by simp [keysOf])
  simp only [group_by_algo, List.mem_map] at hp
  obtain ⟨q, hq, hfq⟩ := hp
  have hb : q.1 = a := congrArg Prod.fst hfq
  have hl : q.2.mergeSort keyLe = p := congrArg Prod.snd hfq
  subst hb
  have hlook : List.lookup q.1 (rows.foldl insertRow []) = some q.2 :=
    lookup_of_mem_nodup _ _ _ hnd (by simpa using hq)
  rw [lookup_foldl_insertRow rows [] q.1] at hlook
  simp only [List.lookup_nil, combineOpt] at hlook
  by_cases hf : rows.filter (fun r => r.algo == q.1) = []
  · rw [if_pos hf] at hlook; cases hlook
  · rw [if_neg hf] at hlook
    rw [← hl, ← Option.some.inj hlook]

lemma keyLe_of_key_eq {x y : Record} (h : rowKey x = rowKey y) : keyLe x y := by
  simp only [rowKey, Prod.mk.injEq] at h
  simp only [keyLe, Bool.or_eq_true, Bool.and_eq_true, decide_eq_true_eq, beq_iff_eq]
  omega

/-- Stability of the per-bucket sort: records tied on `(jobs, machines)`
keep their relative order, and none is dropped. -/
lemma mergeSort_filter_key (l : List Record) (k : Int × Int) :
    (l.mergeSort keyLe).filter (fun r => rowKey r == k) =
      l.filter (fun r => rowKey r == k) := by
  have hpair : (l.filter (fun r => rowKey r == k)).Pairwise (fun x y => keyLe x y) := by
    apply List.pairwise_of_forall_mem_list
    intro x hx y hy
    have hxk : rowKey x = k := by simpa using (List.mem_filter.mp hx).2
    have hyk : rowKey y = k := by simpa using (List.mem_filter.mp hy).2
    exact keyLe_of_key_eq (hxk.trans hyk.symm)
  have hsub : l.filter (fun r => rowKey r == k) <+ l.mergeSort keyLe :=
    List.sublist_mergeSort keyLe_trans keyLe_total hpair (List.filter_sublist l)
  have h2 : l.filter (fun r => rowKey r == k) <+
      (l.mergeSort keyLe).filter (fun r => rowKey r == k) := by
    have := hsub.filter (fun r => rowKey r == k)
    simpa only [List.filter_filter, Bool.and_self] using this
  have hperm : (l.mergeSort keyLe).filter (fun r => rowKey r == k) ~
      l.filter (fun r => rowKey r == k) :=
    (List.mergeSort_perm l keyLe).filter _
  exact (h2.eq_of_length hperm.length_eq.symm).symm

/-- Claim C3: the per-partition sort is stable and deduplicates nothing:
for any partition of the grouper's output and any fixed `(jobs, machines)`
key, the partition's records with that key are exactly the input's
records with that algorithm and key, in input order. -/
theorem partition_sort_stable (rows : List Record) (a : String) (p : List Record)
    (k : Int × Int) (hp : (a, p) ∈ group_by_algo rows) :
    p.filter (fun r => rowKey r == k) =
      (rows.filter (fun r => r.algo == a)).filter (fun r => rowKey r == k) := by
  rw [partition_eq rows a p hp, mergeSort_filter_key]

/-- A second "GA" record with the same `(jobs, machines)` key as
`wRecGA` but different payload, to exercise stability. -/
def wRecGA2 : Record := ⟨"GA", 10, 5, 3, 99, 1, 40, 41, 0⟩

lemma group_dup_eval :
    group_by_algo [wRecGA, wRecGA2] = [("GA", [wRecGA, wRecGA2])] := by
  simp only [group_by_algo, insertRow, List.foldl, wRecGA, wRecGA2]
  norm_num
  exact List.mergeSort_of_sorted (by decide)

theorem partition_sort_stable_witness :
    (("GA", [wRecGA, wRecGA2]) ∈ group_by_algo [wRecGA, wRecGA2]) ∧
    [wRecGA, wRecGA2].filter (fun r => rowKey r == ((10 : Int), (5 : Int))) =
      ([wRecGA, wRecGA2].filter (fun r => r.algo == "GA")).filter
        (fun r => rowKey r == ((10 : Int), (5 : Int))) :=
  ⟨by rw [group_dup_eval]; decide,
   partition_sort_stable [wRecGA, wRecGA2] "GA" [wRecGA, wRecGA2] (10, 5)
     (by rw [group_dup_eval]; decide)⟩

/-- Claim C4: if the loader yields zero records (e.g. a header-only CSV,
whose `DictReader` yields no rows), `main` terminates fatally with the
empty-input message and a non-zero exit status, producing no side effect
at all — no directory creation, no grouping output, no chart write. -/
theorem empty_input_rejected (inp : List RawRow) (outdir : String)
    (h : read_results_csv inp = some []) :
    PlotResults.main inp outdir =
      Except.error "CSV пуст или не удалось распарсить данные" ∧
    ∀ es, PlotResults.main inp outdir ≠ Except.ok es := by
  constructor
  · simp [PlotResults.main, h]
  · intro es
    simp [PlotResults.main, h]

theorem empty_input_rejected_witness :
    read_results_csv [] = some [] ∧
    (PlotResults.main [] "artifacts" =
      Except.error "CSV пуст или не удалось распарсить данные" ∧
    ∀ es, PlotResults.main [] "artifacts" ≠ Except.ok es) :=
  ⟨rfl, empty_input_rejected [] "artifacts" rfl⟩

lemma read_results_csv_none_of_mem (inp : List RawRow) (row : RawRow)
    (h1 : row ∈ inp) (h2 : parseRow row = none) :
    read_results_csv inp = none := by
  induction inp with
  | nil => cases h1
  | cons r rest ih =>
    rcases List.mem_cons.mp h1 with rfl | hm
    · simp [read_results_csv, h2]
    · have hr := ih hm
      simp only [read_results_csv, hr]
      cases parseRow r <;> simp

/-- Claim C5: one malformed row (any field value that fails its `int` or
`float` coercion, e.g. `makespan_best = "abc"`) aborts the entire load —
the loader returns no partial record list — and `main` terminates with a
non-zero exit status having produced no side effect, so nothing is
written. -/
theorem malformed_row_aborts (inp : List RawRow) (row : RawRow) (outdir : String)
    (h1 : row ∈ inp) (h2 : parseRow row = none) :
    read_results_csv inp = none ∧
    PlotResults.main inp outdir = Except.error "ParseError" ∧
    ∀ es, PlotResults.main inp outdir ≠ Except.ok es := by
  have hr := read_results_csv_none_of_mem inp row h1 h2
  exact ⟨hr, by simp [PlotResults.main, hr], fun es => by simp [PlotResults.main, hr]⟩

/-- The C5 scenario row: `makespan_best` holds the non-numeric `"abc"`. -/
def wRowAbc : RawRow :=
  [("algo", "GA"), ("jobs", "10"), ("machines", "5"), ("runs", "3"),
   ("time_mean_ms", "12.0"), ("time_std_ms", "1.0"), ("makespan_best", "abc"),
   ("makespan_mean", "43.0"), ("makespan_std", "0.0")]

theorem malformed_row_aborts_witness :
    (wRowAbc ∈ [wRowAbc] ∧ parseRow wRowAbc = none) ∧
    (read_results_csv [wRowAbc] = none ∧
    PlotResults.main [wRowAbc] "artifacts" = Except.error "ParseError" ∧
    ∀ es, PlotResults.main [wRowAbc] "artifacts" ≠ Except.ok es) :=
  ⟨⟨by decide, by decide⟩,
   malformed_row_aborts [wRowAbc] wRowAbc "artifacts" (by decide) (by decide)⟩

lemma mem_dropWhile_of_not {p : Char → Bool} {x : Char} (hx : p x = false) :
    ∀ {l : List Char}, x ∈ l → x ∈ l.dropWhile p := by
  intro l
  induction l with
  | nil => intro h; cases h
  | cons a t ih =>
    intro h
    cases hpa : p a
    · rwa [List.dropWhile_cons_of_neg (by simp [hpa])]
    · rw [List.dropWhile_cons_of_pos (by simp [hpa])]
      rcases List.mem_cons.mp h with rfl | hm
      · rw [hpa] at hx; cases hx
      · exact ih hm

lemma mem_stripWS {x : Char} (hx : x.isWhitespace = false) {l : List Char}
    (h : x ∈ l) : x ∈ stripWS l := by
  unfold stripWS
  rw [List.mem_reverse]
  exact mem_dropWhile_of_not hx (List.mem_reverse.mpr (mem_dropWhile_of_not hx h))

lemma mem_signSplit_snd {x : Char} (hx1 : x ≠ '+') (hx2 : x ≠ '-')
    {l : List Char} (h : x ∈ l) : x ∈ (signSplit l).2 := by
  cases l with
  | nil => cases h
  | cons c rest =>
    by_cases h1 : c = '+'
    · rcases List.mem_cons.mp h with rfl | hm
      · exact absurd h1 hx1
      · simpa [signSplit, h1] using hm
    · by_cases h2 : c = '-'
      · rcases List.mem_cons.mp h with rfl | hm
        · exact absurd h2 hx2
        · simpa [signSplit, h1, h2] using hm
      · simpa [signSplit, h1, h2] using h

lemma all_isDigit_false_of_dot {ds : List Char} (h : '.' ∈ ds) :
    ds.all Char.isDigit = false := by
  by_contra hcon
  have hall : ds.all Char.isDigit = true := by
    cases hv : ds.all Char.isDigit
    · exact absurd hv hcon
    · rfl
  have : ('.' : Char).isDigit = true := List.all_eq_true.mp hall '.' h
  exact absurd this (by decide)

/-- A string containing a decimal point is rejected by `int(...)`. -/
lemma pyInt_none_of_dot (s : String) (h : '.' ∈ s.toList) : pyInt s = none := by
  unfold pyInt pyIntCore
  have hm : '.' ∈ stripWS s.toList := mem_stripWS (by decide) h
  have hds : '.' ∈ (signSplit (stripWS s.toList)).2 :=
    mem_signSplit_snd (by decide) (by decide) hm
  have hall := all_isDigit_false_of_dot hds
  rw [if_neg]
  rintro ⟨-, hc⟩
  rw [hall] at hc
  cases hc

lemma splitOnFirst_all_not {p : Char → Bool} :
    ∀ {l : List Char}, (∀ c ∈ l, p c = false) → splitOnFirst p l = (l, none) := by
  intro l
  induction l with
  | nil => intro _; rfl
  | cons c rest ih =>
    intro h
    have hc : p c = false := h c (List.mem_cons_self _ _)
    have hrest := ih (fun d hd => h d (List.mem_cons_of_mem _ hd))
    simp [splitOnFirst, hc, hrest]

lemma digit_not_expChar {c : Char} (h : c.isDigit = true) : isExpChar c = false := by
  by_cases h1 : c = 'e'
  · subst h1; exact absurd h (by decide)
  · by_cases h2 : c = 'E'
    · subst h2; exact absurd h (by decide)
    · simp [isExpChar, h1, h2]

lemma digit_not_dotChar {c : Char} (h : c.isDigit = true) : isDotChar c = false := by
  by_cases h1 : c = '.'
  · subst h1; exact absurd h (by decide)
  · simp [isDotChar, h1]

/-- Every integer literal accepted by `int(...)` is accepted by
`float(...)` with the same value. -/
lemma pyFloat_of_pyInt (s : String) (v : Int) (h : pyInt s = some v) :
    pyFloat s = some (v : ℚ) := by
  unfold pyInt pyIntCore at h
  by_cases hcond : (signSplit (stripWS s.toList)).2 ≠ [] ∧
      (signSplit (stripWS s.toList)).2.all Char.isDigit
  · rw [if_pos hcond] at h
    have hv := Option.some.inj h
    have hall := List.all_eq_true.mp hcond.2
    have h1 : splitOnFirst isExpChar (signSplit (stripWS s.toList)).2 =
        ((signSplit (stripWS s.toList)).2, none) :=
      splitOnFirst_all_not (fun c hc => digit_not_expChar (hall c hc))
    have h2 : splitOnFirst isDotChar (signSplit (stripWS s.toList)).2 =
        ((signSplit (stripWS s.toList)).2, none) :=
      splitOnFirst_all_not (fun c hc => digit_not_dotChar (hall c hc))
    unfold pyFloat pyFloatMag
    rw [h1]
    simp only [expValOf, Option.elim, Option.bind]
    unfold mantVal
    rw [h2]
    simp only [Option.elim, if_pos hcond, Option.map]
    rw [← hv]
    have h10 : ratPow10 0 = 1 := by decide
    cases hneg : (signSplit (stripWS s.toList)).1 <;> simp [h10]
  · rw [if_neg hcond] at h
    cases h

lemma optBind_eq_some {α β : Type} {x : Option α} {f : α → Option β} {b : β} :
    (x >>= f) = some b ↔ ∃ a, x = some a ∧ f a = some b := Option.bind_eq_some

/-- A successful row parse obtained each integer field by a successful
`int(...)` coercion of the looked-up cell. -/
lemma parseRow_int_fields (row : RawRow) (rec : Record) (h : parseRow row = some rec) :
    (∃ s, List.lookup "jobs" row = some s ∧ pyInt s = some rec.jobs) ∧
    (∃ s, List.lookup "machines" row = some s ∧ pyInt s = some rec.machines) ∧
    (∃ s, List.lookup "runs" row = some s ∧ pyInt s = some rec.runs) ∧
    (∃ s, List.lookup "makespan_best" row = some s ∧ pyInt s = some rec.makespan_best) := by
  unfold parseRow at h
  rw [optBind_eq_some] at h; obtain ⟨a, ha, h⟩ := h
  rw [optBind_eq_some] at h; obtain ⟨s1, hs1, h⟩ := h
  rw [optBind_eq_some] at h; obtain ⟨v1, hv1, h⟩ := h
  rw [optBind_eq_some] at h; obtain ⟨s2, hs2, h⟩ := h
  rw [optBind_eq_some] at h; obtain ⟨v2, hv2, h⟩ := h
  rw [optBind_eq_some] at h; obtain ⟨s3, hs3, h⟩ := h
  rw [optBind_eq_some] at h; obtain ⟨v3, hv3, h⟩ := h
  rw [optBind_eq_some] at h; obtain ⟨s4, hs4, h⟩ := h
  rw [optBind_eq_some] at h; obtain ⟨v4, hv4, h⟩ := h
  rw [optBind_eq_some] at h; obtain ⟨s5, hs5, h⟩ := h
  rw [optBind_eq_some] at h; obtain ⟨v5, hv5, h⟩ := h
  rw [optBind_eq_some] at h; obtain ⟨s6, hs6, h⟩ := h
  rw [optBind_eq_some] at h; obtain ⟨v6, hv6, h⟩ := h
  rw [optBind_eq_some] at h; obtain ⟨s7, hs7, h⟩ := h
  rw [optBind_eq_some] at h; obtain ⟨v7, hv7, h⟩ := h
  rw [optBind_eq_some] at h; obtain ⟨s8, hs8, h⟩ := h
  rw [optBind_eq_some] at h; obtain ⟨v8, hv8, h⟩ := h
  simp only [Option.pure_def, Option.some.injEq] at h
  subst h
  exact ⟨⟨s1, hs1, hv1⟩, ⟨s2, hs2, hv2⟩, ⟨s3, hs3, hv3⟩, ⟨s6, hs6, hv6⟩⟩

lemma parseRow_none_of_bad_int_field (row : RawRow) (f s : String)
    (hf : f ∈ (["jobs", "machines", "runs", "makespan_best"] : List String))
    (hlook : List.lookup f row = some s) (hbad : pyInt s = none) :
    parseRow row = none := by
  cases hres : parseRow row with
  | none => rfl
  | some rec =>
    exfalso
    have hx := parseRow_int_fields row rec hres
    simp only [List.mem_cons, List.mem_singleton, List.not_mem_nil, or_false] at hf
    rcases hf with rfl | rfl | rfl | rfl
    · obtain ⟨s', hs', hv'⟩ := hx.1
      obtain rfl := Option.some.inj (hlook.symm.trans hs')
      rw [hbad] at hv'; cases hv'
    · obtain ⟨s', hs', hv'⟩ := hx.2.1
      obtain rfl := Option.some.inj (hlook.symm.trans hs')
      rw [hbad] at hv'; cases hv'
    · obtain ⟨s', hs', hv'⟩ := hx.2.2.1
      obtain rfl := Option.some.inj (hlook.symm.trans hs')
      rw [hbad] at hv'; cases hv'
    · obtain ⟨s', hs', hv'⟩ := hx.2.2.2
      obtain rfl := Option.some.inj (hlook.symm.trans hs')
      rw [hbad] at hv'; cases hv'

/-- Claim C10: the integer fields `jobs`, `machines`, `runs`,
`makespan_best` only accept decimal-integer literals — any value
containing a decimal point (such as `"3.0"`) fails `int(...)` and aborts
the whole load with no records returned — while the float fields accept
both integer-formatted and float-formatted strings. -/
theorem int_fields_reject_float_literals :
    (∀ s : String, '.' ∈ s.toList → pyInt s = none) ∧
    (∀ (s : String) (v : Int), pyInt s = some v → pyFloat s = some (v : ℚ)) ∧
    pyFloat "3.0" = some 3 ∧ pyInt "3.0" = none ∧
    (∀ (inp : List RawRow) (row : RawRow) (f s : String), row ∈ inp →
      f ∈ (["jobs", "machines", "runs", "makespan_best"] : List String) →
      List.lookup f row = some s → '.' ∈ s.toList →
      read_results_csv inp = none) := by
  refine ⟨pyInt_none_of_dot, pyFloat_of_pyInt, ?_, by decide, ?_⟩
  · show some ((mkRat 3 1 + mkRat 0 (10 ^ 1)) * ratPow10 0) = some (3 : ℚ)
    have h0 : ratPow10 0 = mkRat (10 ^ 0) 1 := rfl
    rw [h0]
    norm_num [Rat.mkRat_one, Rat.mkRat_eq_divInt]
  intro inp row f s hmem hf hlook hdot
  exact read_results_csv_none_of_mem inp row hmem
    (parseRow_none_of_bad_int_field row f s hf hlook (pyInt_none_of_dot s hdot))

/-- A row whose integer field `jobs` holds the float-formatted `"3.0"`. -/
def wRowFloatJobs : RawRow :=
  [("algo", "GA"), ("jobs", "3.0"), ("machines", "5"), ("runs", "3"),
   ("time_mean_ms", "12.0"), ("time_std_ms", "1.0"), ("makespan_best", "42"),
   ("makespan_mean", "43.0"), ("makespan_std", "0.0")]

theorem int_fields_reject_float_literals_witness :
    pyInt "3.0" = none ∧ pyFloat "7" = some ((7 : Int) : ℚ) ∧
    read_results_csv [wRowFloatJobs] = none :=
  ⟨int_fields_reject_float_literals.1 "3.0" (by decide),
   int_fields_reject_float_literals.2.1 "7" 7 (by decide),
   int_fields_reject_float_literals.2.2.2.2 [wRowFloatJobs] wRowFloatJobs "jobs" "3.0"
     (by decide) (by decide) (by decide) (by decide)⟩

lemma nameLe_trans : ∀ a b c : String × List Record,
    nameLe a b → nameLe b c → nameLe a c := by
  intro a b c
  simp only [nameLe, decide_eq_true_eq]
  exact le_trans

lemma nameLe_total : ∀ a b : String × List Record, nameLe a b || nameLe b a := by
  intro a b
  simp only [nameLe, Bool.or_eq_true, decide_eq_true_eq]
  exact le_total a.1 b.1

/-- Claim C6: both chart renderers iterate the algorithms in ascending
lexicographic name order; each algorithm of the group yields exactly one
line whose `(x, y)` point sequence is `(r.jobs, metric r)` over its
partition in partition order; the x-axis is labeled `"n_jobs"` and the
legend lists all algorithms in that order. -/
theorem line_chart_renders (g : Groups) (_hg : g ≠ [])
    (title y_label : String) (y_key : Record → ℚ) :
    (plot_lines g title y_label y_key).xlabel = "n_jobs" ∧
    ((plot_lines g title y_label y_key).lines.map PlottedLine.label).Pairwise (· ≤ ·) ∧
    (plot_lines g title y_label y_key).legend =
      (plot_lines g title y_label y_key).lines.map PlottedLine.label ∧
    ((plot_lines g title y_label y_key).lines.map PlottedLine.label ~ g.map Prod.fst) ∧
    (∀ ln ∈ (plot_lines g title y_label y_key).lines, ∃ part,
      (ln.label, part) ∈ g ∧ ln.x.zip ln.y = part.map (fun r => (r.jobs, y_key r))) ∧
    (plot_runtime_mean_with_std g).xlabel = "n_jobs" ∧
    ((plot_runtime_mean_with_std g).lines.map ErrLine.label).Pairwise (· ≤ ·) ∧
    (∀ ln ∈ (plot_runtime_mean_with_std g).lines, ∃ part,
      (ln.label, part) ∈ g ∧
      ln.x.zip ln.y = part.map (fun r => (r.jobs, r.time_mean_ms))) := by
  have hsort := List.sorted_mergeSort nameLe_trans nameLe_total g
  refine ⟨rfl, ?_, ?_, ?_, ?_, rfl, ?_, ?_⟩
  · simp only [plot_lines, List.map_map]
    exact hsort.map _ (fun a b hab => by
      simpa only [nameLe, decide_eq_true_eq] using hab)
  · simp [plot_lines, List.map_map]
  · simp only [plot_lines, List.map_map]
    have := (List.mergeSort_perm g nameLe).map Prod.fst
    simpa using this
  · intro ln hln
    simp only [plot_lines, List.mem_map] at hln
    obtain ⟨ap, hap, rfl⟩ := hln
    refine ⟨ap.2, ?_, ?_⟩
    · have : ap ∈ g := List.mem_mergeSort.mp hap
      simpa using this
    · exact List.zip_map' (fun r => r.jobs) y_key ap.2
  · simp only [plot_runtime_mean_with_std, List.map_map]
    exact hsort.map _ (fun a b hab => by
      simpa only [nameLe, decide_eq_true_eq] using hab)
  · intro ln hln
    simp only [plot_runtime_mean_with_std, List.mem_map] at hln
    obtain ⟨ap, hap, rfl⟩ := hln
    refine ⟨ap.2, ?_, ?_⟩
    · have : ap ∈ g := List.mem_mergeSort.mp hap
      simpa using this
    · exact List.zip_map' (fun r => r.jobs) (fun r => r.time_mean_ms) ap.2

/-- A one-algorithm group used to instantiate the chart theorems. -/
def wGroup : Groups := [("GA", [wRecGA])]

theorem line_chart_renders_witness :
    (wGroup ≠ []) ∧
    ((plot_lines wGroup "t" "y" (fun r => r.makespan_mean)).xlabel = "n_jobs" ∧
    ((plot_lines wGroup "t" "y" (fun r => r.makespan_mean)).lines.map
      PlottedLine.label).Pairwise (· ≤ ·) ∧
    (plot_lines wGroup "t" "y" (fun r => r.makespan_mean)).legend =
      (plot_lines wGroup "t" "y" (fun r => r.makespan_mean)).lines.map
        PlottedLine.label ∧
    ((plot_lines wGroup "t" "y" (fun r => r.makespan_mean)).lines.map
      PlottedLine.label ~ wGroup.map Prod.fst) ∧
    (∀ ln ∈ (plot_lines wGroup "t" "y" (fun r => r.makespan_mean)).lines, ∃ part,
      (ln.label, part) ∈ wGroup ∧
      ln.x.zip ln.y = part.map (fun r => (r.jobs, r.makespan_mean))) ∧
    (plot_runtime_mean_with_std wGroup).xlabel = "n_jobs" ∧
    ((plot_runtime_mean_with_std wGroup).lines.map ErrLine.label).Pairwise (· ≤ ·) ∧
    (∀ ln ∈ (plot_runtime_mean_with_std wGroup).lines, ∃ part,
      (ln.label, part) ∈ wGroup ∧
      ln.x.zip ln.y = part.map (fun r => (r.jobs, r.time_mean_ms)))) :=
  ⟨by decide, line_chart_renders wGroup (by decide) "t" "y" (fun r => r.makespan_mean)⟩

/-- Claim C7: the runtime chart plots every algorithm of the group — its
line labels are exactly the group's keys (one line per algorithm) — and
for every algorithm its line plots, in partition order, the points
`(r.jobs, r.time_mean_ms)` with an error bar of half-length exactly
`r.time_std_ms` at each point; conversely every line arises from a
partition that way; the y-axis label and the title are the fixed
runtime strings. -/
theorem runtime_chart_content (g : Groups) :
    (plot_runtime_mean_with_std g).ylabel = "runtime mean (ms)" ∧
    (plot_runtime_mean_with_std g).title = "Runtime vs jobs (mean ± std)" ∧
    ((plot_runtime_mean_with_std g).lines.map ErrLine.label ~ g.map Prod.fst) ∧
    (∀ ap ∈ g, ∃ ln ∈ (plot_runtime_mean_with_std g).lines, ln.label = ap.1 ∧
      ln.x.zip (ln.y.zip ln.yerr) =
        ap.2.map (fun r => (r.jobs, (r.time_mean_ms, r.time_std_ms)))) ∧
    (∀ ln ∈ (plot_runtime_mean_with_std g).lines, ∃ part, (ln.label, part) ∈ g ∧
      ln.x.zip (ln.y.zip ln.yerr) =
        part.map (fun r => (r.jobs, (r.time_mean_ms, r.time_std_ms)))) := by
  refine ⟨rfl, rfl, ?_, ?_, ?_⟩
  · simp only [plot_runtime_mean_with_std, List.map_map]
    have := (List.mergeSort_perm g nameLe).map Prod.fst
    simpa using this
  · intro ap hap
    have hmem : ErrLine.mk ap.1 (ap.2.map (fun r => r.jobs))
        (ap.2.map (fun r => r.time_mean_ms))
        (ap.2.map (fun r => r.time_std_ms)) 3 ∈
        (plot_runtime_mean_with_std g).lines := by
      simp only [plot_runtime_mean_with_std, List.mem_map]
      exact ⟨ap, List.mem_mergeSort.mpr hap, rfl⟩
    refine ⟨_, hmem, rfl, ?_⟩
    rw [List.zip_map' (fun r => r.time_mean_ms) (fun r => r.time_std_ms) ap.2]
    exact List.zip_map' (fun r => r.jobs)
      (fun r => (r.time_mean_ms, r.time_std_ms)) ap.2
  · intro ln hln
    simp only [plot_runtime_mean_with_std, List.mem_map] at hln
    obtain ⟨ap, hap, rfl⟩ := hln
    refine ⟨ap.2, ?_, ?_⟩
    · have : ap ∈ g := List.mem_mergeSort.mp hap
      simpa using this
    · rw [List.zip_map' (fun r => r.time_mean_ms) (fun r => r.time_std_ms) ap.2]
      exact List.zip_map' (fun r => r.jobs)
        (fun r => (r.time_mean_ms, r.time_std_ms)) ap.2

theorem runtime_chart_content_witness :
    (plot_runtime_mean_with_std wGroup).ylabel = "runtime mean (ms)" ∧
    (plot_runtime_mean_with_std wGroup).title = "Runtime vs jobs (mean ± std)" ∧
    ((plot_runtime_mean_with_std wGroup).lines.map ErrLine.label ~
      wGroup.map Prod.fst) ∧
    (∀ ap ∈ wGroup, ∃ ln ∈ (plot_runtime_mean_with_std wGroup).lines,
      ln.label = ap.1 ∧
      ln.x.zip (ln.y.zip ln.yerr) =
        ap.2.map (fun r => (r.jobs, (r.time_mean_ms, r.time_std_ms)))) ∧
    (∀ ln ∈ (plot_runtime_mean_with_std wGroup).lines, ∃ part,
      (ln.label, part) ∈ wGroup ∧
      ln.x.zip (ln.y.zip ln.yerr) =
        part.map (fun r => (r.jobs, (r.time_mean_ms, r.time_std_ms)))) :=
  runtime_chart_content wGroup

/-- Claim C8: the pipeline is deterministic — identical inputs produce
identical loaded record sequences, identical groups, identical chart
data for all four charts, and an identical `main` outcome.  The model is
a pure function of the input rows and the output directory: the source's
only iteration over an unordered-looking structure, `groups.items()`, is
wrapped in `sorted(...)`, and Python dicts themselves iterate in
deterministic insertion order. -/
theorem pipeline_deterministic (inp₁ inp₂ : List RawRow) (outdir : String)
    (h : inp₁ = inp₂) :
    read_results_csv inp₁ = read_results_csv inp₂ ∧
    (∀ rows₁ rows₂, read_results_csv inp₁ = some rows₁ →
      read_results_csv inp₂ = some rows₂ →
      rows₁ = rows₂ ∧ group_by_algo rows₁ = group_by_algo rows₂ ∧
      plot_runtime_mean_with_std (group_by_algo rows₁) =
        plot_runtime_mean_with_std (group_by_algo rows₂) ∧
      ∀ t yl yk, plot_lines (group_by_algo rows₁) t yl yk =
        plot_lines (group_by_algo rows₂) t yl yk) ∧
    PlotResults.main inp₁ outdir = PlotResults.main inp₂ outdir := by
  subst h
  refine ⟨rfl, ?_, rfl⟩
  intro rows₁ rows₂ h1 h2
  obtain rfl : rows₁ = rows₂ := Option.some.inj (h1.symm.trans h2)
  exact ⟨rfl, rfl, rfl, fun _ _ _ => rfl⟩

theorem pipeline_deterministic_witness :
    read_results_csv [wRowAbc] = read_results_csv [wRowAbc] ∧
    (∀ rows₁ rows₂, read_results_csv [wRowAbc] = some rows₁ →
      read_results_csv [wRowAbc] = some rows₂ →
      rows₁ = rows₂ ∧ group_by_algo rows₁ = group_by_algo rows₂ ∧
      plot_runtime_mean_with_std (group_by_algo rows₁) =
        plot_runtime_mean_with_std (group_by_algo rows₂) ∧
      ∀ t yl yk, plot_lines (group_by_algo rows₁) t yl yk =
        plot_lines (group_by_algo rows₂) t yl yk) ∧
    PlotResults.main [wRowAbc] "artifacts" = PlotResults.main [wRowAbc] "artifacts" :=
  pipeline_deterministic [wRowAbc] [wRowAbc] "artifacts" rfl

/-- Claim C9: on a successful run, `main` first creates the output
directory (with `exist_ok=True`, so an existing directory is accepted),
then writes exactly the four charts `runtime_mean_ms.png`,
`makespan_best.png`, `makespan_mean.png`, `makespan_std.png` under the
output directory in that order, then prints the banner and the four
written paths, one per line. -/
theorem successful_run_outputs (inp : List RawRow) (rows : List Record)
    (outdir : String) (h1 : read_results_csv inp = some rows) (h2 : rows ≠ []) :
    ∃ es, PlotResults.main inp outdir = Except.ok es ∧
      es.head? = some (Event.mkdir outdir true) ∧
      savedPaths es =
        [pathJoin outdir "runtime_mean_ms.png", pathJoin outdir "makespan_best.png",
         pathJoin outdir "makespan_mean.png", pathJoin outdir "makespan_std.png"] ∧
      printedLines es =
        ["Сохранено:",
         " - " ++ pathJoin outdir "runtime_mean_ms.png",
         " - " ++ pathJoin outdir "makespan_best.png",
         " - " ++ pathJoin outdir "makespan_mean.png",
         " - " ++ pathJoin outdir "makespan_std.png"] := by
  have h3 : rows.isEmpty = false := by
    cases rows with
    | nil => exact absurd rfl h2
    | cons a t => rfl
  refine ⟨PlotResults.successTrace (group_by_algo rows) outdir, ?_, rfl, rfl, rfl⟩
  simp [PlotResults.main, h1, h3]

/-- A fully well-formed CSV data row. -/
def wRowGA : RawRow :=
  [("algo", "GA"), ("jobs", "10"), ("machines", "5"), ("runs", "3"),
   ("time_mean_ms", "12.0"), ("time_std_ms", "1.0"), ("makespan_best", "42"),
   ("makespan_mean", "43.0"), ("makespan_std", "0.0")]

theorem successful_run_outputs_witness :
    ∃ es, PlotResults.main [wRowGA] "artifacts" = Except.ok es ∧
      es.head? = some (Event.mkdir "artifacts" true) ∧
      savedPaths es =
        [pathJoin "artifacts" "runtime_mean_ms.png",
         pathJoin "artifacts" "makespan_best.png",
         pathJoin "artifacts" "makespan_mean.png",
         pathJoin "artifacts" "makespan_std.png"] ∧
      printedLines es =
        ["Сохранено:",
         " - " ++ pathJoin "artifacts" "runtime_mean_ms.png",
         " - " ++ pathJoin "artifacts" "makespan_best.png",
         " - " ++ pathJoin "artifacts" "makespan_mean.png",
         " - " ++ pathJoin "artifacts" "makespan_std.png"] :=
  successful_run_outputs [wRowGA] ((read_results_csv [wRowGA]).get (by decide))
    "artifacts" (Option.some_get _).symm (by decide)
